import Mathlib

/-!
Verification of the distributed sort and distributed unique engines of
src/heat/core/manipulations.py over a shallow embedding.  Local tensors are
modelled as lists of integers (one-dimensional slices) or lists of lines
(multi-dimensional slices); the processes of the communicator are the entries
of a list, so a partitioned array is a list of local slices in rank order.
The collective primitives (gather, all-gather and friends) concatenate or
replicate data in rank order, following the communication layer described in
the specification, sections 2 and 6.
-/

namespace HeatCore

/-! ### Models of the torch primitives used by the source -/

/-- Decidability of the reversed order used for descending sorts. -/
instance : DecidableRel (fun a b : Int => b ≤ a) := fun a b => Int.decLe b a

instance : IsTotal Int (fun a b : Int => b ≤ a) := ⟨fun a b => le_total b a⟩

instance : IsTrans Int (fun a b : Int => b ≤ a) := ⟨fun _ _ _ h1 h2 => le_trans h2 h1⟩

instance : IsAntisymm Int (fun a b : Int => b ≤ a) := ⟨fun _ _ h1 h2 => le_antisymm h2 h1⟩

/-- torch.sort applied to a one-dimensional slice: a stable comparison sort,
ascending or descending. -/
def torchSort (descending : Bool) (l : List Int) : List Int :=
  if descending then List.insertionSort (fun a b : Int => b ≤ a) l
  else List.insertionSort (fun a b : Int => a ≤ b) l

/-- torch.unique with sorted=True on a flat tensor: the ascending list of the
distinct values. -/
def torchUnique (l : List Int) : List Int :=
  List.insertionSort (fun a b : Int => a ≤ b) l.dedup

/-- The inverse indices returned by torch.unique(..., return_inverse=True): for
each input position, the position of that value inside the unique list. -/
def inversePos (l : List Int) : List Nat :=
  l.map (fun v => List.indexOf v (torchUnique l))

/-- The error raised by the torch unique primitive on an empty tensor; the
source guards against it at manipulations.py lines 493-505 ("Passing an empty
vector to torch throws exception"). -/
def torchEmptyError : String := "RuntimeError: torch.unique on an empty tensor"

/-- The torch unique primitive including its refusal of empty tensors. -/
def torchUniquePrim (l : List Int) : Except String (List Int × List Nat) :=
  if l.isEmpty then Except.error torchEmptyError
  else Except.ok (torchUnique l, inversePos l)

/-! ### The partition chunking collaborator -/

/-- Modelled from the spec: the Partition Chunking collaborator
(comm.counts_displs_shape and comm.chunk are not under src/) computes the
per-rank counts along the split axis from the global extent, balanced to
within one element, with the remainder assigned to the lowest ranks first
(specification, sections 2 and 6). -/
def chunkCounts (n size : Nat) : List Nat :=
  (List.range size).map (fun p => n / size + if p < n % size then 1 else 0)

/-- op_func of manipulations.py line 156: operator.gt when descending,
operator.lt otherwise, applied as op_func(val, pivot). -/
def pivotOp (descending : Bool) (v p : Int) : Bool :=
  if descending then decide (p < v) else decide (v < p)

/-- Lines 158-159: the destination rank of one element,
next(i for i in range(len(global_pivots) + 1)
     if (i == len(global_pivots) or op_func(val, global_pivots[i][idx]))). -/
def classify (descending : Bool) (pivots : List Int) (v : Int) : Nat :=
  match pivots with
  | [] => 0
  | p :: ps => if pivotOp descending v p then 0 else classify descending ps v + 1

/-- The first pivot index whose boundary value lies strictly beyond the element
(strictly greater when ascending, strictly smaller when descending), or the
number of pivots when there is none.  This is the amended CLASSIFY rule. -/
def firstStrictIdx (descending : Bool) (pivots : List Int) (v : Int) : Nat :=
  pivots.findIdx (pivotOp descending v)

/-- The comparator claim C6 describes: the element stops at the first boundary
it does not exceed (ascending) or does not fall below (descending), so a tie at
a boundary stops there, landing in the lower-index bucket. -/
def claimOp (descending : Bool) (v p : Int) : Bool :=
  if descending then decide (p ≤ v) else decide (v ≤ p)

/-- The destination rank exactly as claim C6 words it. -/
def claimClassify (descending : Bool) (pivots : List Int) (v : Int) : Nat :=
  pivots.findIdx (claimOp descending v)

/-! ### The EXCHANGE_DATA tags -/

/-- int of the digit concatenation of an index tuple,
int(a join of str(el) for el in idx): Python int() rejects the empty string
with a ValueError, hence none for the empty tuple. -/
def tagOf (idx : List Nat) : Option Nat :=
  if idx.isEmpty then none
  else some (idx.foldl (fun acc d => acc * 10 ^ (toString d).length + d) 0)

/-- Line 203: the sender tags the element at transposed position idx with the
digits of idx[1:], its position along the non-split dimensions. -/
def sendTagOf (idx : List Nat) : Option Nat := tagOf (idx.drop 1)

/-- Line 214: the receiver computes the matching tag from the position of the
receive slot along the non-split dimensions. -/
def recvTagOf (nonSplitIdx : List Nat) : Option Nat := tagOf nonSplitIdx

/-- The ValueError raised by int applied to an empty string in the send loop,
line 203. -/
def tagError : String := "ValueError: invalid literal for int() with base 10"

/-- Lines 200-204, the send loop of EXCHANGE_DATA for a one-dimensional array:
every element of the local sorted slice has full index (i,), so the tag is
built from the empty tuple idx[1:] and the int conversion fails on every
process that owns at least one element. -/
def sendTagsOf (localSorted : List (List Int)) : Except String (List (List Nat)) :=
  localSorted.mapM (fun ls => (List.range ls.length).mapM (fun i =>
    match sendTagOf [i] with
    | some t => Except.ok t
    | none => Except.error tagError))

/-! ### The distributed sort path (split axis = sort axis), one-dimensional -/

/-- The distributed branch of sort (manipulations.py lines 89-314) for a
one-dimensional array split along axis 0, simulated globally over all
processes: LOCAL_SORT (line 94), PIVOT_SAMPLE (101-108), PIVOT_GATHER
(112-122, Gatherv concatenates the oversample pivots in rank order),
GLOBAL_PIVOT_COMPUTE and PIVOT_BROADCAST (125-140), CLASSIFY (151-163),
EXCHANGE_COUNTS (164-198) and the send loop of EXCHANGE_DATA (200-204).
The element-wise exchange and the rebalance loop (206-313) are reached only
when every local slice is empty, in which case all transfer loops are empty
and every process keeps an empty slice. -/
def sortSplitAxis (descending : Bool) (locals : List (List Int)) :
    Except String (List (List Int)) := do
  let size := locals.length
  let counts := chunkCounts (locals.map List.length).sum size
  let localSorted := locals.map (torchSort descending)
  let localPivots := (List.range size).map (fun rank =>
    let ls := localSorted.getD rank []
    if counts.getD rank 0 ≠ 0 then
      ((List.range size).map (fun x => (x + 1) * ls.length / (size + 1))).map
        (fun i => ls.getD i 0)
    else [])
  let pivotBuffer := localPivots.flatten
  let sortedPivots := torchSort descending pivotBuffer
  let globalPivots :=
    ((List.range (size - 1)).map (fun x => (x + 1) * sortedPivots.length / size)).map
      (fun i => sortedPivots.getD i 0)
  let indexMatrix := localSorted.map (fun ls => ls.map (classify descending globalPivots))
  let _partitionMatrix :=
    (List.range size).map (fun r => indexMatrix.flatten.countP (fun c => c = r))
  let sendMatrix :=
    indexMatrix.map (fun im => (List.range size).map (fun r => im.countP (fun c => c = r)))
  let _recvMatrix :=
    (List.range size).map (fun p => (List.range size).map
      (fun q => (sendMatrix.getD q []).getD p 0))
  let _tags ← sendTagsOf localSorted
  pure (locals.map (fun _ => ([] : List Int)))

/-! ### The dispatch of sort and the fast (local) path -/

/-- The communication primitives of the layer consumed by the source. -/
inductive MpiCall
  | gatherv | bcast | allreduce | alltoall | allgather | allgatherv | send | recv
deriving DecidableEq

/-- The two branches of sort. -/
inductive SortPath
  | localPath | distributedPath
deriving DecidableEq

/-- Line 85: if a.split is None or axis != a.split, sorting is not affected by
the split and the local branch runs. -/
def sortPathOf (split : Option Nat) (axis : Nat) : SortPath :=
  match split with
  | none => SortPath.localPath
  | some s => if axis ≠ s then SortPath.localPath else SortPath.distributedPath

/-- The collective calls issued by each branch of sort: the local branch
(line 87) performs none; the distributed branch issues Gatherv (line 122),
Bcast (138), Allreduce (170) and Alltoall (182), plus data-dependent
point-to-point transfers not listed here. -/
def sortCommCalls (split : Option Nat) (axis : Nat) : List MpiCall :=
  match sortPathOf split axis with
  | SortPath.localPath => []
  | SortPath.distributedPath =>
      [MpiCall.gatherv, MpiCall.bcast, MpiCall.allreduce, MpiCall.alltoall]

/-- Line 87: torch.sort(a._DNDarray__array, dim=axis) sorts every line of the
local tensor along the requested axis independently; a local tensor is
modelled as the list of its lines along that axis, and a partitioned array as
the list of local tensors in rank order. -/
def sortFastPath (descending : Bool) (locals : List (List (List Int))) :
    List (List (List Int)) :=
  locals.map (fun proc => proc.map (torchSort descending))

/-- The comparator demanded by the specification of the fast path, as a
Boolean relation. -/
def specLe (descending : Bool) (a b : Int) : Bool :=
  if descending then decide (b ≤ a) else decide (a ≤ b)

/-- The fast path in the words of the specification: each process sorts its
local slice along the axis independently using a standard O(n log n)
comparison sort (merge sort). -/
def specLocalSort (descending : Bool) (locals : List (List (List Int))) :
    List (List (List Int)) :=
  locals.map (fun proc => proc.map (fun line => line.mergeSort (specLe descending)))

/-! ### The distributed unique engine -/

/-- Lines 493-507: the local unique step with the zero-length guard; an empty
local slice along the split axis yields an empty local distinct list and an
empty local inverse map instead of a call to the failing torch primitive. -/
def uniqueLocalStep (lsplitLen : Nat) (l : List Int) :
    Except String (List Int × List Nat) :=
  if lsplitLen = 0 then Except.ok ([], []) else torchUniquePrim l

/-- Lines 493-535 as seen by one process for axis=None: the guarded local step
followed by the collective calls every process issues unconditionally, the
Allgather of the local distinct count (lines 510-512) and the Allgatherv of
the local distinct lists (line 535); the second unique at line 558 is a local
call, not a collective. -/
def uniqueProcessCalls (lsplitLen : Nat) (l : List Int) :
    Except String (List MpiCall) := do
  let _ ← uniqueLocalStep lsplitLen l
  pure [MpiCall.allgather, MpiCall.allgatherv]

/-- Lines 493-507 as a total function: the local distinct list with the
zero-length guard in place. -/
def localUniqueList (l : List Int) : List Int :=
  if l.length = 0 then [] else torchUnique l

/-- Lines 509-558 for a split one-dimensional array and axis=None: the local
distinct lists are concatenated in rank order by Allgatherv and torch.unique
runs a second time on the candidate buffer. -/
def uniqueNoAxisValues (locals : List (List Int)) : List Int :=
  torchUnique ((locals.map localUniqueList).flatten)

/-- torch.unique(dim=0, sorted=True) on a stack of rows: the lexicographically
ascending list of the distinct rows (with a dim argument torch orders the
distinct sub-tensors lexicographically). -/
def torchUniqueRows (rows : List (List Int)) : List (List Int) :=
  List.insertionSort (fun a b : List Int => a ≤ b) rows.dedup

/-- Lines 493-507 for axis equal to the split axis: the local distinct rows
along the axis, with the zero-length guard in place. -/
def localUniqueRows (rs : List (List Int)) : List (List Int) :=
  if rs.length = 0 then [] else torchUniqueRows rs

/-- Lines 509-558 for axis equal to the split axis: the local distinct rows of
every process are concatenated in rank order by Allgatherv (line 535, along
the split axis) and torch.unique runs a second time on the stacked candidate
rows (line 558, dim=0), which merges duplicates that existed across
processes. -/
def uniqueAxisSplitRows (locals : List (List (List Int))) : List (List Int) :=
  torchUniqueRows ((locals.map localUniqueRows).flatten)

/-- Lines 610-616, the coordinator loop recovering the local position of the
first occurrence of each of its distinct rows, stopping once maxU positions
were collected: found and indices accumulate in order, and indices records
pos_list.index(p), the first occurrence of p in the full local inverse map. -/
def selectIndicesGo (posList : List Nat) (maxU : Nat) :
    List Nat → List Nat → List Nat → List Nat
  | [], _found, indices => indices
  | p :: rest, found, indices =>
    if p ∈ found then selectIndicesGo posList maxU rest found indices
    else
      if (indices ++ [List.indexOf p posList]).length = maxU then
        indices ++ [List.indexOf p posList]
      else
        selectIndicesGo posList maxU rest (found ++ [p])
          (indices ++ [List.indexOf p posList])

/-- The index list the coordinator broadcasts (lines 606-621). -/
def selectIndices (posList : List Nat) (maxU : Nat) : List Nat :=
  selectIndicesGo posList maxU posList [] []

/-- Lines 602-630 (the coordinator case: axis given and different from the
split axis), instantiated to a two-process group, each process owning one row
of a two-row matrix split along axis 0 and unique taken along axis 1: the
local data is transposed so the columns become rows, each process runs
torch.unique(dim=0) with inverse on its own columns, the coordinator is the
process with the maximum distinct count (ties resolved to the lower rank,
line 603), its first-occurrence index list is broadcast, and every process
extracts its own rows at the broadcast positions (line 622); the result,
marked is_split, is the list of global columns at the selected positions. -/
def uniqueCaseBColumns (r0 r1 : List Int) : List (Int × Int) :=
  let u0 := torchUnique r0
  let u1 := torchUnique r1
  let coord := if u1.length > u0.length then 1 else 0
  let maxU := max u0.length u1.length
  let posList := if coord = 0 then inversePos r0 else inversePos r1
  let indices := selectIndices posList maxU
  indices.map (fun j => (r0.getD j 0, r1.getD j 0))

/-- The two shapes a call to unique can return: the raw torch tensor forwarded
at line 481 when a.split is None, or a DNDarray handle built by
factories.array at line 630 carrying a split annotation. -/
inductive UniqueReturn
  | torchTensor (values : List Int)
  | dndarray (values : List Int) (split : Option Nat)
deriving DecidableEq

/-- Whether the returned value is a partitioned-array handle. -/
def UniqueReturn.isHandle : UniqueReturn → Bool
  | UniqueReturn.dndarray _ _ => true
  | UniqueReturn.torchTensor _ => false

/-- unique of a one-dimensional array (values only): lines 479-481 forward the
raw torch.unique result whenever a.split is None; otherwise the Case A gather
runs and the result is wrapped as a DNDarray whose split is None when axis is
None (line 514 is never overwritten) and a.split when axis equals the split
axis (lines 529 and 633). -/
def uniqueModel1D (split : Option Nat) (axis : Option Nat)
    (locals : List (List Int)) : UniqueReturn :=
  match split with
  | none => UniqueReturn.torchTensor (torchUnique locals.flatten)
  | some s =>
    match axis with
    | none => UniqueReturn.dndarray (uniqueNoAxisValues locals) none
    | some _ => UniqueReturn.dndarray (uniqueNoAxisValues locals) (some s)

/-! ### Helper lemmas about the torch models -/

theorem mem_torchUnique {x : Int} {l : List Int} : x ∈ torchUnique l ↔ x ∈ l := by
  unfold torchUnique
  rw [(List.perm_insertionSort _ _).mem_iff, List.mem_dedup]

theorem nodup_torchUnique (l : List Int) : (torchUnique l).Nodup := by
  unfold torchUnique
  exact ((List.perm_insertionSort _ _).nodup_iff).mpr (List.nodup_dedup l)

theorem mem_torchUniqueRows {x : List Int} {l : List (List Int)} :
    x ∈ torchUniqueRows l ↔ x ∈ l := by
  unfold torchUniqueRows
  rw [(List.perm_insertionSort _ _).mem_iff, List.mem_dedup]

theorem nodup_torchUniqueRows (l : List (List Int)) : (torchUniqueRows l).Nodup := by
  unfold torchUniqueRows
  exact ((List.perm_insertionSort _ _).nodup_iff).mpr (List.nodup_dedup l)

theorem specLe_trans_aux (descending : Bool) (a b c : Int)
    (hab : specLe descending a b = true) (hbc : specLe descending b c = true) :
    specLe descending a c = true := by
  cases descending <;> simp [specLe] at hab hbc ⊢ <;> omega

theorem specLe_total_aux (descending : Bool) (a b : Int) :
    (specLe descending a b || specLe descending b a) = true := by
  cases descending <;> simp [specLe] <;> omega

theorem torchSort_eq_mergeSort (descending : Bool) (l : List Int) :
    torchSort descending l = l.mergeSort (specLe descending) := by
  cases descending with
  | false =>
    show List.insertionSort (fun a b : Int => a ≤ b) l = l.mergeSort (specLe false)
    have hperm : (List.insertionSort (fun a b : Int => a ≤ b) l).Perm
        (l.mergeSort (specLe false)) :=
      (List.perm_insertionSort _ _).trans (List.mergeSort_perm l _).symm
    have hs1 : List.Sorted (fun a b : Int => a ≤ b)
        (List.insertionSort (fun a b : Int => a ≤ b) l) :=
      List.sorted_insertionSort _ _
    have hs2 : List.Sorted (fun a b : Int => a ≤ b) (l.mergeSort (specLe false)) := by
      have hp := List.sorted_mergeSort (specLe_trans_aux false) (specLe_total_aux false) l
      exact hp.imp (fun h => by simpa [specLe] using h)
    exact List.eq_of_perm_of_sorted hperm hs1 hs2
  | true =>
    show List.insertionSort (fun a b : Int => b ≤ a) l = l.mergeSort (specLe true)
    have hperm : (List.insertionSort (fun a b : Int => b ≤ a) l).Perm
        (l.mergeSort (specLe true)) :=
      (List.perm_insertionSort _ _).trans (List.mergeSort_perm l _).symm
    have hs1 : List.Sorted (fun a b : Int => b ≤ a)
        (List.insertionSort (fun a b : Int => b ≤ a) l) :=
      List.sorted_insertionSort _ _
    have hs2 : List.Sorted (fun a b : Int => b ≤ a) (l.mergeSort (specLe true)) := by
      have hp := List.sorted_mergeSort (specLe_trans_aux true) (specLe_total_aux true) l
      exact hp.imp (fun h => by simpa [specLe] using h)
    exact List.eq_of_perm_of_sorted hperm hs1 hs2

theorem classify_eq_findIdx_aux (descending : Bool) (v : Int) (pivots : List Int) :
    classify descending pivots v = firstStrictIdx descending pivots v := by
  induction pivots with
  | nil => rfl
  | cons p ps ih =>
    unfold firstStrictIdx at ih ⊢
    rw [List.findIdx_cons]
    cases hop : pivotOp descending v p with
    | true => simp [classify, hop]
    | false => simp [classify, hop, ih]

/-! ### The claims -/

/-- C1: evaluating the distributed sort at the concrete input of specification
scenario 1 (four processes, one-dimensional array [5,3,1,4,2,0,7,6] split in
chunks of two, ascending): the send loop of EXCHANGE_DATA builds every tag as
int of the digit concatenation of idx[1:], which is the empty tuple for a
one-dimensional array, so int raises ValueError and sort never returns; the
multiset of values of sort(a) therefore cannot equal the multiset of values
of a on this input, against the claim. -/
theorem sort_scenario1_valueerror :
    sortSplitAxis false [[5, 3], [1, 4], [2, 0], [7, 6]] = Except.error tagError := by
  rfl

/-- C2: evaluating the distributed sort with descending=True at the input of
specification scenario 1: the same ValueError from int applied to the empty
digit string aborts the pipeline in EXCHANGE_DATA, so no output satisfying
the order invariant is produced on this input, against the claim. -/
theorem sort_scenario1_desc_valueerror :
    sortSplitAxis true [[5, 3], [1, 4], [2, 0], [7, 6]] = Except.error tagError := by
  rfl

/-- C3: evaluating the distributed sort at a distribution that includes
zero-length chunks (global extent 2 over four processes, chunks [1,1,0,0]):
the pipeline aborts with the ValueError from the tag conversion on every
process owning an element, so no process receives a local result of its
original chunk length, against the claim. -/
theorem sort_zero_chunk_valueerror :
    sortSplitAxis false [[5], [3], [], []] = Except.error tagError := by
  rfl

/-- C4 counterexample: two processes, rows [1,1,2,2] and [5,6,7,6] of a matrix
split along axis 0, unique along axis 1 (the coordinator case).  The global
column (2,6) occurs in the array, yet the coordinator (rank 1, three local
distinct values against two) deduplicates positions 1 and 3, which hold
distinct global columns, so (2,6) is missing from the result: not every value
of a appears in unique(a). -/
theorem unique_coordinator_cex :
    ((2, 6) : Int × Int) ∈ List.zip ([1, 1, 2, 2] : List Int) ([5, 6, 7, 6] : List Int) ∧
      ((2, 6) : Int × Int) ∉ uniqueCaseBColumns [1, 1, 2, 2] [5, 6, 7, 6] := by
  decide

/-- C4 (amended): in the no-axis case, every value of unique(a) appears in a,
every value of a appears in unique(a), and no value appears twice; in the
case axis equal to the split axis the same holds row-wise: every row of
unique(a) is a row of a, every row of a appears among the rows of unique(a),
and no row appears twice.  The coordinator case (axis given and different
from the split axis) does not enjoy this property. -/
theorem unique_gather_correct (locals : List (List Int))
    (rowLocals : List (List (List Int))) :
    ((∀ x : Int, x ∈ uniqueNoAxisValues locals ↔ x ∈ locals.flatten) ∧
      (uniqueNoAxisValues locals).Nodup) ∧
    ((∀ r : List Int, r ∈ uniqueAxisSplitRows rowLocals ↔ r ∈ rowLocals.flatten) ∧
      (uniqueAxisSplitRows rowLocals).Nodup) := by
  refine ⟨⟨?_, nodup_torchUnique _⟩, ⟨?_, nodup_torchUniqueRows _⟩⟩
  · intro x
    unfold uniqueNoAxisValues
    rw [mem_torchUnique]
    constructor
    · intro hx
      rcases List.mem_flatten.mp hx with ⟨l, hl, hxl⟩
      rcases List.mem_map.mp hl with ⟨orig, ho, rfl⟩
      refine List.mem_flatten.mpr ⟨orig, ho, ?_⟩
      unfold localUniqueList at hxl
      by_cases h : orig.length = 0
      · rw [if_pos h] at hxl
        exact absurd hxl (List.not_mem_nil x)
      · rw [if_neg h] at hxl
        exact mem_torchUnique.mp hxl
    · intro hx
      rcases List.mem_flatten.mp hx with ⟨orig, ho, hxl⟩
      refine List.mem_flatten.mpr ⟨localUniqueList orig, List.mem_map_of_mem _ ho, ?_⟩
      unfold localUniqueList
      have h : orig.length ≠ 0 := by
        intro h0
        rw [List.length_eq_zero] at h0
        subst h0
        exact absurd hxl (List.not_mem_nil x)
      rw [if_neg h]
      exact mem_torchUnique.mpr hxl
  · intro r
    unfold uniqueAxisSplitRows
    rw [mem_torchUniqueRows]
    constructor
    · intro hx
      rcases List.mem_flatten.mp hx with ⟨l, hl, hxl⟩
      rcases List.mem_map.mp hl with ⟨orig, ho, rfl⟩
      refine List.mem_flatten.mpr ⟨orig, ho, ?_⟩
      unfold localUniqueRows at hxl
      by_cases h : orig.length = 0
      · rw [if_pos h] at hxl
        exact absurd hxl (List.not_mem_nil r)
      · rw [if_neg h] at hxl
        exact mem_torchUniqueRows.mp hxl
    · intro hx
      rcases List.mem_flatten.mp hx with ⟨orig, ho, hxl⟩
      refine List.mem_flatten.mpr ⟨localUniqueRows orig, List.mem_map_of_mem _ ho, ?_⟩
      unfold localUniqueRows
      have h : orig.length ≠ 0 := by
        intro h0
        rw [List.length_eq_zero] at h0
        subst h0
        exact absurd hxl (List.not_mem_nil r)
      rw [if_neg h]
      exact mem_torchUniqueRows.mpr hxl

/-- C6 counterexample: ascending sort with the single pivot boundary 5 and the
element 5.  The code assigns the element to bucket 1 (the condition is the
strict operator.lt, so a tie falls through past the boundary), while the
claimed rule (first boundary the element does not exceed, ties to the
lower-index bucket) assigns bucket 0. -/
theorem classify_claim_cex :
    classify false [(5 : Int)] 5 = 1 ∧ claimClassify false [(5 : Int)] 5 = 0 := by
  decide

/-- C6 (amended): every local element is assigned the destination rank of the
first pivot boundary strictly beyond it (strictly greater when ascending,
strictly smaller when descending), the last rank when there is none; an
element exactly equal to a boundary value is never assigned at that boundary,
so ties go to the higher-index side. -/
theorem classify_first_strict (descending : Bool) (pivots : List Int) (v : Int) :
    classify descending pivots v = firstStrictIdx descending pivots v ∧
      ∀ j, j < pivots.length → pivots.getD j 0 = v →
        classify descending pivots v ≠ j := by
  refine ⟨classify_eq_findIdx_aux descending v pivots, ?_⟩
  intro j hj hval hEq
  have haux := classify_eq_findIdx_aux descending v pivots
  have hidx : List.findIdx (pivotOp descending v) pivots = j := by
    unfold firstStrictIdx at haux
    omega
  have hlt : List.findIdx (pivotOp descending v) pivots < pivots.length := by
    omega
  have hpred := @List.findIdx_get _ (pivotOp descending v) pivots hlt
  have hgetv : pivots.get ⟨List.findIdx (pivotOp descending v) pivots, hlt⟩ = v := by
    rw [← List.getD_eq_get pivots 0 hlt, hidx]
    exact hval
  rw [hgetv] at hpred
  cases descending <;> simp [pivotOp] at hpred

/-- Witness for C6 (amended) at descending=false, pivots=[5], v=5, j=0. -/
theorem classify_first_strict_witness :
    classify false [(5 : Int)] 5 = firstStrictIdx false [(5 : Int)] 5 ∧
      classify false [(5 : Int)] 5 ≠ 0 :=
  ⟨(classify_first_strict false [(5 : Int)] 5).1,
   (classify_first_strict false [(5 : Int)] 5).2 0 (by decide) (by decide)⟩

/-- C7 counterexample: the digit-concatenation tag encoding is not injective:
the distinct index tuples (1,23) and (12,3) both obtain tag 123. -/
theorem tag_collision_cex :
    tagOf [1, 23] = some 123 ∧ tagOf [12, 3] = some 123 ∧
      ([1, 23] : List Nat) ≠ [12, 3] := by
  decide

/-- C7 (amended): for every element the tag the sender attaches (built from
idx[1:], the position along the non-split dimensions) equals the tag the
receiver computes for that position, so matched transfers agree on the tag;
but the encoding is not injective across distinct tuples, and for a
one-dimensional array the non-split tuple is empty and produces no valid tag
at all. -/
theorem send_recv_tags_agree (i : Nat) (idx : List Nat) :
    sendTagOf (i :: idx) = recvTagOf idx ∧
      (idx = [] → sendTagOf (i :: idx) = none) := by
  constructor
  · rfl
  · intro h
    subst h
    rfl

/-- Witness for C7 (amended) at i = 0, idx = []. -/
theorem send_recv_tags_agree_witness :
    sendTagOf [0] = recvTagOf [] ∧ sendTagOf [0] = none :=
  ⟨(send_recv_tags_agree 0 []).1, (send_recv_tags_agree 0 []).2 rfl⟩

/-- C8: whenever the requested axis differs from the split axis or the array
has no split, sort takes the local branch, issues no communication calls, and
its result equals each process independently applying a standard comparison
sort (merge sort) to every line of its own slice along that axis. -/
theorem sort_fast_path_refines_local_sort (split : Option Nat) (axis : Nat)
    (descending : Bool) (locals : List (List (List Int)))
    (h : split ≠ some axis) :
    sortPathOf split axis = SortPath.localPath ∧
      sortCommCalls split axis = [] ∧
      sortFastPath descending locals = specLocalSort descending locals := by
  have hpath : sortPathOf split axis = SortPath.localPath := by
    cases split with
    | none => rfl
    | some s =>
      have hne : axis ≠ s := fun hc => h (by rw [hc])
      simp [sortPathOf, hne]
  refine ⟨hpath, ?_, ?_⟩
  · simp [sortCommCalls, hpath]
  · have hfun : torchSort descending = fun l => l.mergeSort (specLe descending) :=
      funext (torchSort_eq_mergeSort descending)
    simp only [sortFastPath, specLocalSort, hfun]

/-- Witness for C8 at split=None, axis=0, one process slice [[3,1,2]]. -/
theorem sort_fast_path_refines_local_sort_witness :
    sortPathOf none 0 = SortPath.localPath ∧
      sortCommCalls none 0 = [] ∧
      sortFastPath false [[[3, 1, 2]]] = specLocalSort false [[[3, 1, 2]]] :=
  sort_fast_path_refines_local_sort none 0 false [[[3, 1, 2]]] (by decide)

/-- C9: with a.split = None, unique forwards the raw torch.unique tensor
instead of wrapping it in a partitioned-array handle: at the unsplit input
[3,2,1] the model returns the torch-tensor shape, not a DNDarray, against the
claim (and against the docstring of unique itself). -/
theorem unique_nosplit_returns_raw_tensor :
    uniqueModel1D none none [[3, 2, 1]] = UniqueReturn.torchTensor [1, 2, 3] ∧
      (uniqueModel1D none none [[3, 2, 1]]).isHandle = false := by
  decide

/-- C10: for every local slice, including the empty one, the local unique step
of the distributed unique never raises: the zero-length guard substitutes an
empty local distinct list and an empty local inverse map instead of calling
the torch primitive on an empty tensor, and the process issues exactly the
same collective calls (Allgather, Allgatherv) as every other process. -/
theorem unique_zero_chunk_no_raise (l : List Int) :
    uniqueProcessCalls l.length l =
        Except.ok [MpiCall.allgather, MpiCall.allgatherv] ∧
      uniqueLocalStep 0 l = Except.ok ([], []) := by
  cases l with
  | nil => exact ⟨rfl, rfl⟩
  | cons x xs => exact ⟨rfl, rfl⟩

end HeatCore
